import Mathlib

/-!
Shallow embedding of the ottomator-agents crawl4AI-agent sources:
`chi_conference_expert.py` (RAG tool functions over a Supabase-backed chunk
store) and `crawl_event_links.py` (ingestion orchestrator and link extractor).
Python strings are modelled as `String` or `List Char`, database rows as
explicit lists, and delegated external calls (OpenAI, Supabase RPC, HTTP) as
function parameters returning `Except` or plain data.
-/

/-- The metadata source tag used by every store query in
chi_conference_expert.py (the literal string passed to every metadata
source equality filter and to the RPC filter). -/
def datasetSource : String := "sigchi__conference_events"

/-- Embedding vectors: Python lists of numbers, carried opaquely (the code
performs no arithmetic on them), modelled with integer entries; the Python
fallback value is literally `[0] * 1536`. -/
abbrev Vec := List Int

/-- Embeds `get_embedding` (chi_conference_expert.py lines 67-77).  The
delegated `openai_client.embeddings.create` call is modelled by its outcome:
`Except.ok v` when it returns vector `v`, `Except.error e` when it raises
with message `e`.  The function returns the delegated vector on success and
the 1536-entry zero vector on failure; because the whole body is wrapped in
try/except, no exception reaches the caller (the Lean model is total). -/
def get_embedding (response : Except String Vec) : Vec :=
  match response with
  | Except.ok v => v
  | Except.error _ => List.replicate 1536 0

/-- One row of the `site_pages` table as read by the tools: `source` stands
for the JSON field `metadata->>source`. -/
structure Row where
  url : String
  chunk_number : Nat
  title : String
  content : String
  source : String
deriving DecidableEq

/-- The filter applied by `get_page_content`: equality on `url` and on
`metadata->>source`. -/
def rowMatches (url : String) (r : Row) : Bool :=
  r.url == url && r.source == datasetSource

/-- The sort key of the order-by-chunk_number query clause: ascending
chunk_number. -/
def byChunkNumber (a b : Row) : Prop :=
  a.chunk_number ≤ b.chunk_number

instance : DecidableRel byChunkNumber :=
  fun a b => Nat.decLe a.chunk_number b.chunk_number

instance : IsTotal Row byChunkNumber :=
  ⟨fun a b => Nat.le_total a.chunk_number b.chunk_number⟩

instance : IsTrans Row byChunkNumber :=
  ⟨fun _ _ _ hab hbc => Nat.le_trans hab hbc⟩

/-- The Supabase query of `get_page_content` (chi_conference_expert.py lines
165-170): select the rows whose `url` and `metadata->>source` match, ordered
by `chunk_number` ascending (a stable sort, modelled by insertion sort). -/
def get_page_chunks (db : List Row) (url : String) : List Row :=
  List.insertionSort byChunkNumber (db.filter (rowMatches url))

/-- Embeds the Python idiom split-on-" - "-take-first on the character
list: the text before
the first occurrence of the three-character separator " - ", or the whole
input when the separator does not occur. -/
def beforeSep : List Char → List Char
  | ' ' :: '-' :: ' ' :: _ => []
  | c :: rest => c :: beforeSep rest
  | [] => []

/-- String version of `beforeSep`, used on the first chunk title. -/
def titleHead (s : String) : String :=
  ⟨beforeSep s.data⟩

/-- Embeds `get_page_content` (chi_conference_expert.py lines 152-188): on an
empty query result return the not-found sentinel; otherwise derive the page
title from the first row title and join the title line with every chunk
content using a blank-line separator. -/
def get_page_content (db : List Row) (url : String) : String :=
  match get_page_chunks db url with
  | [] => "No content found for URL: " ++ url
  | first :: rest =>
      String.intercalate "\n\n"
        (("# " ++ titleHead first.title ++ "\n") ::
          (first :: rest).map (fun r => r.content))

/-- Embeds `list_conferences` (chi_conference_expert.py lines 126-149): select
the urls whose `metadata->>source` matches, return `[]` when none do, and
otherwise return `sorted(set(urls))`, modelled as an insertion sort of the
deduplicated url list (the `String` order of Lean, like that of Python, is
lexicographic on code points). -/
def list_conferences (db : List Row) : List String :=
  match db.filter (fun r => r.source == datasetSource) with
  | [] => []
  | r0 :: rs =>
      List.insertionSort (fun a b : String => a ≤ b)
        (((r0 :: rs).map (fun r => r.url)).dedup)

/-- One row returned by the `match_site_pages` RPC, with the two fields the
formatter reads. -/
structure Doc where
  title : String
  content : String
deriving DecidableEq

/-- The per-chunk section built by `retrieve_relevant_documentation`: the
f-string holding a leading newline, a heading line with the row title, a
blank line, the row content, and a trailing newline. -/
def formatChunk (d : Doc) : String :=
  "\n# " ++ d.title ++ "\n\n" ++ d.content ++ "\n"

/-- Embeds `retrieve_relevant_documentation` (chi_conference_expert.py lines
80-123).  `embedCall` models the delegated OpenAI embedding call (shared with
`get_embedding`); `match_site_pages` models the Supabase RPC, taking the query
embedding, the match count and the source filter value.  The code embeds the
query through `get_embedding`, calls the RPC with `match_count` 100 and the
dataset source filter, returns the no-results sentinel when the RPC returns no
rows, and otherwise joins the formatted sections with the "---" delimiter. -/
def retrieve_relevant_documentation
    (embedCall : String → Except String Vec)
    (match_site_pages : Vec → Nat → String → List Doc)
    (user_query : String) : String :=
  match match_site_pages (get_embedding (embedCall user_query)) 100 datasetSource with
  | [] => "No relevant documentation found."
  | d :: ds => String.intercalate "\n\n---\n\n" ((d :: ds).map formatChunk)

/-- The result object of `crawler.arun` as used by `crawl_event_links`:
success flag, rendered markdown, error message. -/
structure FetchResult where
  success : Bool
  markdown : String
  error : String

/-- The per-url success message printed by `process_url`. -/
def successMsg (url : String) : String :=
  "Successfully crawled: " ++ url

/-- The per-url failure message printed by `process_url`. -/
def failMsg (url : String) (err : String) : String :=
  "Failed: " ++ url ++ " - Error: " ++ err

/-- Embeds the observable output of the inner `process_url` closure of
`crawl_event_links` (crawl_event_links.py lines 77-88): one log line per url,
a success line when the fetch result has `success` set and a failure line
with the fetch error otherwise. -/
def process_url (fetch : String → FetchResult) (url : String) : String :=
  let result := fetch url
  if result.success then successMsg url else failMsg url result.error

/-- The caller-visible outcome of `crawl_event_links`: the printed log lines
and the returned value.  The Python function returns `None`, modelled as
`Unit`. -/
structure CrawlOutcome where
  logs : List String
  ret : Unit

/-- Embeds `crawl_event_links` (crawl_event_links.py lines 60-93): every url
is processed (a failed fetch is logged and skipped, never raised), and the
function returns `None` to its caller. -/
def crawl_event_links (fetch : String → FetchResult) (urls : List String) : CrawlOutcome :=
  { logs := urls.map (process_url fetch), ret := () }

/-- Number of input urls whose fetch succeeds. -/
def succCount (fetch : String → FetchResult) (urls : List String) : Nat :=
  (urls.filter (fun u => (fetch u).success)).length

/-- Number of input urls whose fetch fails. -/
def failCount (fetch : String → FetchResult) (urls : List String) : Nat :=
  (urls.filter (fun u => !(fetch u).success)).length

/-- A fetch behaviour where every url succeeds. -/
def fetchAllOk : String → FetchResult :=
  fun _ => { success := true, markdown := "page", error := "" }

/-- A fetch behaviour where every url fails. -/
def fetchAllFail : String → FetchResult :=
  fun _ => { success := false, markdown := "", error := "net down" }

/-- Phase of one per-url task of `crawl_event_links` with respect to the
`asyncio.Semaphore(max_concurrent)` gate: not yet admitted, holding a
semaphore slot with its fetch in flight, or finished (slot released). -/
inductive TaskPhase where
  | pending : TaskPhase
  | running : TaskPhase
  | done : TaskPhase
deriving DecidableEq

/-- Number of fetches in flight: tasks currently holding a semaphore slot. -/
def inFlight (s : List TaskPhase) : Nat :=
  s.count TaskPhase.running

/-- Step relation of the semaphore-gated scheduler of `crawl_event_links`
(crawl_event_links.py lines 74-91): a pending task may start its fetch only
when fewer than `maxConcurrent` slots are held (`async with semaphore` blocks
otherwise), and a running task may finish, releasing its slot. -/
inductive SemStep (maxConcurrent : Nat) : List TaskPhase → List TaskPhase → Prop where
  | acquire (l r : List TaskPhase) :
      inFlight (l ++ TaskPhase.pending :: r) < maxConcurrent →
      SemStep maxConcurrent (l ++ TaskPhase.pending :: r) (l ++ TaskPhase.running :: r)
  | release (l r : List TaskPhase) :
      SemStep maxConcurrent (l ++ TaskPhase.running :: r) (l ++ TaskPhase.done :: r)

/-- Embeds `get_event_links_from_conference` (crawl_event_links.py lines
95-108).  `httpGet` models `requests.get` followed by `raise_for_status`:
`Except.ok body` on an HTTP 2xx response, `Except.error e` when the request
or the status check raises.  On success the placeholder body ignores the
response and returns the fixed two-element link list; on any exception the
handler returns the empty list. -/
def get_event_links_from_conference
    (httpGet : String → Except String String) (conference_url : String) : List String :=
  match httpGet conference_url with
  | Except.ok _ => ["https://tei.acm.org/2025/", "https://humanrobotinteraction.org/2025/"]
  | Except.error _ => []

/-- The backtick character that delimits fenced code blocks. -/
def fenceChar : Char := Char.ofNat 96

/-- Number of code-fence markers (three consecutive backticks, scanned
left to right without overlap) in a character list. -/
def fenceCount : List Char → Nat
  | a :: b :: c :: rest =>
    if a = fenceChar ∧ b = fenceChar ∧ c = fenceChar then fenceCount rest + 1
    else fenceCount (b :: c :: rest)
  | _ => 0
termination_by l => l.length

/-- Index just past the first code-fence marker of a character list, when one
occurs. -/
def fenceEnd : List Char → Option Nat
  | a :: b :: c :: rest =>
    if a = fenceChar ∧ b = fenceChar ∧ c = fenceChar then some 3
    else
      match fenceEnd (b :: c :: rest) with
      | some n => some (n + 1)
      | none => none
  | _ => none
termination_by l => l.length

/-- Index of the start of the last paragraph break (a blank line, two
consecutive newlines) of a character list, when one occurs. -/
def lastParaBreak : List Char → Option Nat
  | a :: b :: rest =>
    match lastParaBreak (b :: rest) with
    | some n => some (n + 1)
    | none => if a = '\n' ∧ b = '\n' then some 0 else none
  | _ => none
termination_by l => l.length

/-- Index of the last sentence break (a period followed by whitespace) of a
character list, when one occurs. -/
def lastSentenceBreak : List Char → Option Nat
  | a :: b :: rest =>
    match lastSentenceBreak (b :: rest) with
    | some n => some (n + 1)
    | none => if a = '.' ∧ b.isWhitespace then some 0 else none
  | _ => none
termination_by l => l.length

/-- Modelled from the spec: the body of `chunk_text` is absent from
src/crawl4AI-agent/crawl_event_links.py (lines 36-38 are a placeholder
referring to a crawl_chi_conferences.py that is not in the repository), so
the cut-point choice follows spec section 4.1.  Priority order on the window
of the next `maxSize` characters: when the remaining text fits, take it all;
(a) when a fenced code block opens inside the window without closing (odd
fence count), extend the boundary to the end of the block even past
`maxSize`; (b) otherwise cut at the last paragraph break of the window;
(c) otherwise cut just after the last sentence break of the window;
(d) otherwise cut at exactly `maxSize`. -/
def rawChunkCut (text : List Char) (maxSize : Nat) : Nat :=
  if text.length ≤ maxSize then text.length
  else
    let window := text.take maxSize
    if fenceCount window % 2 = 1 then
      match fenceEnd (text.drop maxSize) with
      | some n => maxSize + n
      | none => text.length
    else
      match lastParaBreak window with
      | some i => i
      | none =>
        match lastSentenceBreak window with
        | some i => i + 1
        | none => maxSize

/-- The cut point actually used: `rawChunkCut` clamped below by one so that
every produced piece is nonempty and chunking always advances. -/
def chunkCut (text : List Char) (maxSize : Nat) : Nat :=
  max 1 (rawChunkCut text maxSize)

/-- Modelled from the spec: the raw pieces of the chunking loop, each piece a
contiguous slice of the input ending at the chosen cut point, produced until
the input is exhausted (empty input yields an empty sequence). -/
def chunkPieces (text : List Char) (maxSize : Nat) : List (List Char) :=
  if h : text = [] then []
  else text.take (chunkCut text maxSize) :: chunkPieces (text.drop (chunkCut text maxSize)) maxSize
termination_by text.length
decreasing_by
  simp only [List.length_drop]
  have h1 : 1 ≤ chunkCut text maxSize := le_max_left 1 _
  have h2 : 0 < text.length := List.length_pos.mpr h
  omega

/-- Boundary whitespace trimming of one piece (Python `str.strip()`). -/
def trimChunk (s : List Char) : List Char :=
  ((s.dropWhile Char.isWhitespace).reverse.dropWhile Char.isWhitespace).reverse

/-- Modelled from the spec: `chunk_text` trims every piece and keeps only the
pieces that are nonempty after trimming (spec section 4.1: a chunk must never
be empty after trimming). -/
def chunk_text (text : List Char) (chunk_size : Nat) : List (List Char) :=
  ((chunkPieces text chunk_size).map trimChunk).filter (fun c => !c.isEmpty)

/-- A character list made of whitespace only. -/
def allWS (w : List Char) : Prop :=
  ∀ c ∈ w, c.isWhitespace = true

/-- `ChunksCover cs t`: the text `t` is exactly the chunks `cs` in order,
interleaved with (possibly empty) whitespace-only gaps at the chunk
boundaries — the formal reading of "concat(chunks) equals the input modulo
boundary whitespace trimming, no loss, no duplication". -/
inductive ChunksCover : List (List Char) → List Char → Prop where
  | nil (w : List Char) : allWS w → ChunksCover [] w
  | cons (w c : List Char) (cs : List (List Char)) (t : List Char) :
      allWS w → ChunksCover cs t → ChunksCover (c :: cs) (w ++ (c ++ t))

/-- A concrete stored row used to exercise the read paths. -/
def sampleRow : Row :=
  { url := "https://chi2025.acm.org/", chunk_number := 0,
    title := "CHI 2025 - Program", content := "body", source := datasetSource }

/-- A concrete RPC result row used to exercise the retrieval path. -/
def sampleDoc : Doc :=
  { title := "CHI 2025", content := "dates and venue" }

/-- A delegated embedding call that always succeeds with the zero vector. -/
def sampleEmbedCall : String → Except String Vec :=
  fun _ => Except.ok (List.replicate 1536 0)

/-- A similarity search that always returns one row. -/
def sampleSearch : Vec → Nat → String → List Doc :=
  fun _ _ _ => [sampleDoc]

/-- A similarity search whose filter matches zero stored chunks. -/
def emptySearch : Vec → Nat → String → List Doc :=
  fun _ _ _ => []

/-- An HTTP fetch that always succeeds. -/
def httpOk : String → Except String String :=
  fun _ => Except.ok "page body"

/-- An HTTP fetch that always raises. -/
def httpFail : String → Except String String :=
  fun _ => Except.error "404 Client Error"

/-- C2: if the delegated embedding call fails, `get_embedding` returns the
all-zero vector of the fixed expected dimensionality 1536; the function is
total, so no exception reaches the caller. -/
theorem get_embedding_failure (err : String) :
    get_embedding (Except.error err) = List.replicate 1536 0 ∧
    (get_embedding (Except.error err)).length = 1536 := by
  refine ⟨rfl, ?_⟩
  show (List.replicate 1536 (0 : Int)).length = 1536
  rw [List.length_replicate]

/-- C5: `retrieve_relevant_documentation` embeds the query through the shared
`get_embedding` path, invokes the similarity search with the fixed match
count 100 and the dataset source filter, and returns the resulting rows
joined as delimited sections, each carrying the row title and content. -/
theorem retrieve_relevant_documentation_spec
    (embedCall : String → Except String Vec)
    (match_site_pages : Vec → Nat → String → List Doc)
    (q : String) (d : Doc) (ds : List Doc)
    (h : match_site_pages (get_embedding (embedCall q)) 100 datasetSource = d :: ds) :
    retrieve_relevant_documentation embedCall match_site_pages q =
      String.intercalate "\n\n---\n\n" ((d :: ds).map formatChunk) := by
  unfold retrieve_relevant_documentation
  rw [h]

/-- Witness for C5 at a concrete embedding call, search and query. -/
theorem retrieve_relevant_documentation_spec_witness :
    retrieve_relevant_documentation sampleEmbedCall sampleSearch "when is CHI" =
      String.intercalate "\n\n---\n\n" ([sampleDoc].map formatChunk) :=
  retrieve_relevant_documentation_spec sampleEmbedCall sampleSearch
    "when is CHI" sampleDoc [] rfl

/-- C6: when the similarity search yields zero rows for the query, the
retrieval tool returns the defined no-results sentinel string instead of
raising. -/
theorem retrieve_no_results_sentinel
    (embedCall : String → Except String Vec)
    (match_site_pages : Vec → Nat → String → List Doc)
    (q : String)
    (h : match_site_pages (get_embedding (embedCall q)) 100 datasetSource = []) :
    retrieve_relevant_documentation embedCall match_site_pages q =
      "No relevant documentation found." := by
  simp only [retrieve_relevant_documentation, h]

/-- Witness for C6 at a concrete empty search. -/
theorem retrieve_no_results_sentinel_witness :
    retrieve_relevant_documentation sampleEmbedCall emptySearch "anything" =
      "No relevant documentation found." :=
  retrieve_no_results_sentinel sampleEmbedCall emptySearch "anything" rfl

/-- C7: for a url with no stored chunk in the dataset, `get_page_content`
returns the defined not-found sentinel, which is never the empty string. -/
theorem get_page_content_not_found (db : List Row) (url : String)
    (h : ∀ r ∈ db, ¬(r.url = url ∧ r.source = datasetSource)) :
    get_page_content db url = "No content found for URL: " ++ url ∧
    get_page_content db url ≠ "" := by
  have hfil : db.filter (rowMatches url) = [] := by
    rw [List.filter_eq_nil_iff]
    intro r hr
    simp only [rowMatches, Bool.and_eq_true, beq_iff_eq, not_and]
    intro h1 h2
    exact h r hr ⟨h1, h2⟩
  have hchunks : get_page_chunks db url = [] := by
    unfold get_page_chunks
    rw [hfil]
    rfl
  have heq : get_page_content db url = "No content found for URL: " ++ url := by
    simp [get_page_content, hchunks]
  refine ⟨heq, ?_⟩
  rw [heq]
  intro hcontra
  have hlen := congrArg String.length hcontra
  rw [String.length_append] at hlen
  have h26 : ("No content found for URL: ").length = 26 := rfl
  have h0 : ("").length = 0 := rfl
  omega

/-- Witness for C7 at an empty store and a concrete url. -/
theorem get_page_content_not_found_witness :
    get_page_content [] "https://unknown.example/" =
      "No content found for URL: " ++ "https://unknown.example/" ∧
    get_page_content [] "https://unknown.example/" ≠ "" :=
  get_page_content_not_found [] "https://unknown.example/"
    (fun r hr => absurd hr (List.not_mem_nil r))

/-- C10: the link extractor ignores the fetched page content entirely — any
two successful fetches yield the same fixed two-element link list — and any
fetch that raises yields the empty list instead of propagating. -/
theorem get_event_links_content_independent
    (fetchA fetchB : String → Except String String) (u1 u2 p1 p2 : String)
    (h1 : fetchA u1 = Except.ok p1) (h2 : fetchB u2 = Except.ok p2) :
    get_event_links_from_conference fetchA u1 = get_event_links_from_conference fetchB u2 ∧
    get_event_links_from_conference fetchA u1 =
      ["https://tei.acm.org/2025/", "https://humanrobotinteraction.org/2025/"] ∧
    ∀ (fetch : String → Except String String) (u e : String),
      fetch u = Except.error e → get_event_links_from_conference fetch u = [] := by
  refine ⟨?_, ?_, ?_⟩
  · simp [get_event_links_from_conference, h1, h2]
  · simp [get_event_links_from_conference, h1]
  · intro fetch u e he
    simp [get_event_links_from_conference, he]

/-- Witness for C10 at concrete fetch behaviours and urls. -/
theorem get_event_links_content_independent_witness :
    get_event_links_from_conference httpOk "https://sigchi.org/conferences/upcoming/" =
      get_event_links_from_conference httpOk "https://sigchi.org/other/" ∧
    get_event_links_from_conference httpOk "https://sigchi.org/conferences/upcoming/" =
      ["https://tei.acm.org/2025/", "https://humanrobotinteraction.org/2025/"] ∧
    ∀ (fetch : String → Except String String) (u e : String),
      fetch u = Except.error e → get_event_links_from_conference fetch u = [] :=
  get_event_links_content_independent httpOk httpOk
    "https://sigchi.org/conferences/upcoming/" "https://sigchi.org/other/"
    "page body" "page body" rfl rfl

/-- C3: when the store holds chunks for a url, `get_page_content` returns the
title line derived from the first returned row followed by every matching
chunk content in ascending chunk_number order: the returned rows are a
permutation of exactly the rows matching the url and dataset filter, sorted
by chunk_number, and the output is the blank-line join of the derived title
line and the row contents in that order. -/
theorem get_page_content_spec (db : List Row) (url : String) (first : Row) (rest : List Row)
    (h : get_page_chunks db url = first :: rest) :
    (first :: rest).Perm (db.filter (rowMatches url)) ∧
    List.Sorted byChunkNumber (first :: rest) ∧
    get_page_content db url =
      String.intercalate "\n\n"
        (("# " ++ titleHead first.title ++ "\n") ::
          (first :: rest).map (fun r => r.content)) := by
  refine ⟨?_, ?_, ?_⟩
  · rw [← h]
    exact List.perm_insertionSort byChunkNumber _
  · rw [← h]
    exact List.sorted_insertionSort byChunkNumber _
  · unfold get_page_content
    rw [h]

/-- Witness for C3 at a one-row store. -/
theorem get_page_content_spec_witness :
    [sampleRow].Perm (List.filter (rowMatches "https://chi2025.acm.org/") [sampleRow]) ∧
    List.Sorted byChunkNumber [sampleRow] ∧
    get_page_content [sampleRow] "https://chi2025.acm.org/" =
      String.intercalate "\n\n"
        (("# " ++ titleHead sampleRow.title ++ "\n") ::
          [sampleRow].map (fun r => r.content)) :=
  get_page_content_spec [sampleRow] "https://chi2025.acm.org/" sampleRow [] (by decide)

/-- Unconditional closed form of `list_conferences`: the empty-result branch
coincides with sorting the deduplicated url list of an empty filter. -/
theorem list_conferences_eq (db : List Row) :
    list_conferences db =
      List.insertionSort (fun a b : String => a ≤ b)
        (((db.filter (fun r => r.source == datasetSource)).map (fun r => r.url)).dedup) := by
  cases hrows : db.filter (fun r => r.source == datasetSource) with
  | nil => simp [list_conferences, hrows]
  | cons r0 rs => simp [list_conferences, hrows]

/-- C4: `list_conferences` returns the distinct urls of the stored rows
matching the dataset source filter, sorted by the lexicographic string
order, with no duplicates. -/
theorem list_conferences_spec (db : List Row) :
    (list_conferences db).Nodup ∧
    List.Sorted (fun a b : String => a ≤ b) (list_conferences db) ∧
    ∀ u, u ∈ list_conferences db ↔ ∃ r ∈ db, r.source = datasetSource ∧ r.url = u := by
  rw [list_conferences_eq]
  refine ⟨?_, ?_, ?_⟩
  · exact ((List.perm_insertionSort _ _).nodup_iff).mpr (List.nodup_dedup _)
  · exact List.sorted_insertionSort _ _
  · intro u
    rw [(List.perm_insertionSort _ _).mem_iff, List.mem_dedup, List.mem_map]
    constructor
    · rintro ⟨r, hr, rfl⟩
      rw [List.mem_filter] at hr
      exact ⟨r, hr.1, by simpa using hr.2, rfl⟩
    · rintro ⟨r, hr, hsrc, hurl⟩
      exact ⟨r, List.mem_filter.mpr ⟨hr, by simp [hsrc]⟩, hurl⟩

/-- C8 counterexample: no function of the value `crawl_event_links` returns
to its caller can recover the aggregate succeeded and failed url counts,
because the returned value is always the unit value — the code logs per-url
messages but returns `None`, so the claimed aggregate count report to the
caller does not exist.  Shown concretely on the single-url input where every
fetch succeeds versus the one where every fetch fails. -/
theorem crawl_event_links_no_tally :
    ¬ ∃ rep : Unit → Nat × Nat,
        ∀ (fetch : String → FetchResult) (urls : List String),
          rep (crawl_event_links fetch urls).ret = (succCount fetch urls, failCount fetch urls) := by
  rintro ⟨rep, hrep⟩
  have h1 := hrep fetchAllOk ["https://tei.acm.org/2025/"]
  have h2 := hrep fetchAllFail ["https://tei.acm.org/2025/"]
  have h3 : (succCount fetchAllOk ["https://tei.acm.org/2025/"],
             failCount fetchAllOk ["https://tei.acm.org/2025/"]) =
            (succCount fetchAllFail ["https://tei.acm.org/2025/"],
             failCount fetchAllFail ["https://tei.acm.org/2025/"]) := by
    rw [← h1, ← h2]
  exact absurd h3 (by decide)

/-- C8 amended: the orchestrator completes without raising on partial
failure — every url is processed, a successful fetch producing a success log
line and a failed fetch a failure log line — but it returns the unit value
(`None`) to its caller, with no aggregate success and failure count. -/
theorem crawl_event_links_amended
    (fetch : String → FetchResult) (urls : List String) (u : String) (hu : u ∈ urls) :
    (crawl_event_links fetch urls).ret = () ∧
    ((fetch u).success = true → successMsg u ∈ (crawl_event_links fetch urls).logs) ∧
    ((fetch u).success = false → failMsg u (fetch u).error ∈ (crawl_event_links fetch urls).logs) := by
  refine ⟨rfl, ?_, ?_⟩
  · intro hs
    exact List.mem_map.mpr ⟨u, hu, by simp [process_url, hs]⟩
  · intro hs
    exact List.mem_map.mpr ⟨u, hu, by simp [process_url, hs]⟩

/-- Witness for the amended C8 at a concrete fetch behaviour and url list. -/
theorem crawl_event_links_amended_witness :
    (crawl_event_links fetchAllOk ["https://tei.acm.org/2025/"]).ret = () ∧
    ((fetchAllOk "https://tei.acm.org/2025/").success = true →
      successMsg "https://tei.acm.org/2025/" ∈
        (crawl_event_links fetchAllOk ["https://tei.acm.org/2025/"]).logs) ∧
    ((fetchAllOk "https://tei.acm.org/2025/").success = false →
      failMsg "https://tei.acm.org/2025/" (fetchAllOk "https://tei.acm.org/2025/").error ∈
        (crawl_event_links fetchAllOk ["https://tei.acm.org/2025/"]).logs) :=
  crawl_event_links_amended fetchAllOk ["https://tei.acm.org/2025/"]
    "https://tei.acm.org/2025/" (List.mem_singleton.mpr rfl)

/-- The in-flight count of a state with one distinguished task. -/
theorem inFlight_append (l r : List TaskPhase) (x : TaskPhase) :
    inFlight (l ++ x :: r) =
      inFlight l + inFlight r + (if x = TaskPhase.running then 1 else 0) := by
  simp only [inFlight, List.count_append, List.count_cons]
  rcases x with _ | _ | _ <;> simp <;> omega

/-- In-flight count around a pending task. -/
theorem inFlight_append_pending (l r : List TaskPhase) :
    inFlight (l ++ TaskPhase.pending :: r) = inFlight l + inFlight r := by
  rw [inFlight_append]
  simp

/-- In-flight count around a running task. -/
theorem inFlight_append_running (l r : List TaskPhase) :
    inFlight (l ++ TaskPhase.running :: r) = inFlight l + inFlight r + 1 := by
  rw [inFlight_append]
  simp

/-- In-flight count around a finished task. -/
theorem inFlight_append_done (l r : List TaskPhase) :
    inFlight (l ++ TaskPhase.done :: r) = inFlight l + inFlight r := by
  rw [inFlight_append]
  simp

/-- C9: starting from any number of pending per-url tasks, every state the
semaphore-gated scheduler of `crawl_event_links` can reach has at most
`maxConcurrent` fetches in flight; moreover from a state at (or above) the
bound no step increases the in-flight count — a further fetch start is
blocked until a running fetch finishes and frees its slot. -/
theorem semaphore_bounds_inflight (m n : Nat) (s : List TaskPhase)
    (h : Relation.ReflTransGen (SemStep m) (List.replicate n TaskPhase.pending) s) :
    inFlight s ≤ m ∧
    ∀ t, m ≤ inFlight s → SemStep m s t → inFlight t < inFlight s := by
  have hbound : inFlight s ≤ m := by
    induction h with
    | refl => simp [inFlight, List.count_replicate]
    | tail hab hbc ih =>
      cases hbc with
      | acquire l r hlt =>
        rw [inFlight_append_pending] at hlt ih
        rw [inFlight_append_running]
        omega
      | release l r =>
        rw [inFlight_append_running] at ih
        rw [inFlight_append_done]
        omega
  refine ⟨hbound, ?_⟩
  intro t hfull hstep
  cases hstep with
  | acquire l r hlt =>
    exact absurd hfull (by omega)
  | release l r =>
    rw [inFlight_append_done, inFlight_append_running]
    omega

/-- Witness for C9 at the default bound five and three pending tasks. -/
theorem semaphore_bounds_inflight_witness :
    inFlight (List.replicate 3 TaskPhase.pending) ≤ 5 ∧
    ∀ t, 5 ≤ inFlight (List.replicate 3 TaskPhase.pending) →
      SemStep 5 (List.replicate 3 TaskPhase.pending) t →
      inFlight t < inFlight (List.replicate 3 TaskPhase.pending) :=
  semaphore_bounds_inflight 5 3 (List.replicate 3 TaskPhase.pending)
    Relation.ReflTransGen.refl

/-- Concatenating the raw chunk pieces reconstructs the input exactly
(fuel-indexed induction on the input length). -/
theorem chunkPieces_join_fuel (maxSize : Nat) :
    ∀ (fuel : Nat) (text : List Char), text.length ≤ fuel →
      (chunkPieces text maxSize).flatten = text := by
  intro fuel
  induction fuel with
  | zero =>
    intro text hlen
    have hnil : text = [] := List.eq_nil_of_length_eq_zero (Nat.le_zero.mp hlen)
    subst hnil
    unfold chunkPieces
    simp
  | succ n ih =>
    intro text hlen
    by_cases hnil : text = []
    · subst hnil
      unfold chunkPieces
      simp
    · unfold chunkPieces
      rw [dif_neg hnil, List.flatten_cons, ih (text.drop (chunkCut text maxSize)) ?_,
        List.take_append_drop]
      have h1 : 1 ≤ chunkCut text maxSize := le_max_left 1 _
      have h2 : 0 < text.length := List.length_pos.mpr hnil
      simp only [List.length_drop]
      omega

/-- Concatenating the raw chunk pieces reconstructs the input exactly. -/
theorem chunkPieces_join (text : List Char) (maxSize : Nat) :
    (chunkPieces text maxSize).flatten = text :=
  chunkPieces_join_fuel maxSize text.length text (Nat.le_refl _)

/-- Every piece is its trim surrounded by whitespace-only margins. -/
theorem trimChunk_decomp (p : List Char) :
    ∃ w1 w2, allWS w1 ∧ allWS w2 ∧ p = w1 ++ (trimChunk p ++ w2) := by
  refine ⟨p.takeWhile Char.isWhitespace,
          ((p.dropWhile Char.isWhitespace).reverse.takeWhile Char.isWhitespace).reverse,
          ?_, ?_, ?_⟩
  · intro c hc
    exact List.mem_takeWhile_imp hc
  · intro c hc
    rw [List.mem_reverse] at hc
    exact List.mem_takeWhile_imp hc
  · have h2 : trimChunk p ++
        ((p.dropWhile Char.isWhitespace).reverse.takeWhile Char.isWhitespace).reverse =
        p.dropWhile Char.isWhitespace := by
      unfold trimChunk
      rw [← List.reverse_append, List.takeWhile_append_dropWhile, List.reverse_reverse]
    rw [h2, List.takeWhile_append_dropWhile]

/-- The empty list is whitespace only. -/
theorem allWS_nil : allWS [] :=
  fun c hc => absurd hc (List.not_mem_nil c)

/-- Whitespace-only lists are closed under append. -/
theorem allWS_append {w1 w2 : List Char} (h1 : allWS w1) (h2 : allWS w2) :
    allWS (w1 ++ w2) := by
  intro c hc
  rcases List.mem_append.mp hc with h | h
  · exact h1 c h
  · exact h2 c h

/-- A cover may absorb extra leading whitespace. -/
theorem chunksCover_ws_prepend {cs : List (List Char)} {t w : List Char}
    (hw : allWS w) (h : ChunksCover cs t) : ChunksCover cs (w ++ t) := by
  induction h with
  | nil w2 hw2 =>
    exact ChunksCover.nil (w ++ w2) (allWS_append hw hw2)
  | cons w2 c cs2 t2 hw2 hcov ih =>
    rw [← List.append_assoc]
    exact ChunksCover.cons (w ++ w2) c cs2 t2 (allWS_append hw hw2) hcov

/-- The trimmed nonempty chunks of any piece list cover the concatenation of
the pieces. -/
theorem chunksCover_pieces (ps : List (List Char)) :
    ChunksCover ((ps.map trimChunk).filter (fun c => !c.isEmpty)) ps.flatten := by
  induction ps with
  | nil => exact ChunksCover.nil [] allWS_nil
  | cons p ps ih =>
    obtain ⟨w1, w2, hw1, hw2, hp⟩ := trimChunk_decomp p
    rw [List.map_cons, List.flatten_cons]
    cases htp : trimChunk p with
    | nil =>
      rw [htp] at hp
      rw [List.filter_cons_of_neg (by simp)]
      rw [hp]
      simp only [List.nil_append]
      rw [List.append_assoc]
      exact chunksCover_ws_prepend hw1 (chunksCover_ws_prepend hw2 ih)
    | cons x xs =>
      rw [htp] at hp
      rw [List.filter_cons_of_pos (by simp)]
      rw [hp, List.append_assoc, List.append_assoc]
      exact ChunksCover.cons w1 (x :: xs) _ _ hw1 (chunksCover_ws_prepend hw2 ih)

/-- C1: for every input text and max size, the sequence returned by
`chunk_text` covers the input exactly — the input is the chunks in order,
interleaved only with whitespace at the chunk boundaries, so no part of the
input is lost and no part is duplicated beyond boundary whitespace
trimming. -/
theorem chunk_text_covers (text : List Char) (chunk_size : Nat) :
    ChunksCover (chunk_text text chunk_size) text := by
  have h := chunksCover_pieces (chunkPieces text chunk_size)
  rw [chunkPieces_join] at h
  unfold chunk_text
  exact h
